import Mathlib

/-!
Verification of the AlarmPro scheduler (app.js foreground scheduler and sw.js
background scheduler), as a shallow embedding in Lean 4.

Modelling decisions:
* JS strings are Lean `String`s; `String.prototype.endsWith` is modelled by
  `strEndsWith` (suffix of the character list).
* The JS objects used as string-keyed sets (`firedKeys`, `swFiredKeys`) are
  modelled as `List String` with membership semantics; insertion prepends and
  deletion filters (the code only ever tests membership).
* An alarm's `days` field may be absent or a non-empty/empty array in JS;
  `Option (List Nat)` models absent (`none`) vs present (`some ds`), and
  `Array.isArray(alarm.days) && alarm.days.length > 0` becomes `hasDays`.
* The `repeat` field of stored records is never read by the firing logic and
  is omitted from the model.
* `fireAlarm` is `async` but its prefix up to the first await runs
  synchronously when called from `tickAlarms`; in particular `currentRinging`
  is set before `tickAlarms` continues.  In JS, `currentRinging` aliases the
  alarm object that the one-shot branch then mutates (`alarm.enabled = false`),
  so after a one-shot fire the ringing reference holds the disabled record;
  the model stores the post-mutation record in `currentRinging` and reports
  the record as matched (pre-mutation) as the tick's `fired` output, which is
  the value `fireAlarm` receives.
-/

namespace AlarmPro

/-- A full alarm record as created by the save handler in app.js
(`btnSave` listener): the fields the scheduler and ringing sequence read. -/
structure AlarmRecord where
  id : String
  name : String
  time : String
  days : Option (List Nat)
  enabled : Bool
  category : String
  audioKey : Option String
  audioDataUrl : Option String
  audioName : Option String
deriving DecidableEq, Repr

/-- The slim record produced by `syncAlarmsToSW`:
`alarms.map(({ audioDataUrl, ...rest }) => rest)` — object destructuring
removes exactly the `audioDataUrl` key and keeps every other field. -/
structure SlimAlarm where
  id : String
  name : String
  time : String
  days : Option (List Nat)
  enabled : Bool
  category : String
  audioKey : Option String
  audioName : Option String
deriving DecidableEq, Repr

/-- The slim projection applied per alarm by `syncAlarmsToSW` (app.js line 54). -/
def slimProject (a : AlarmRecord) : SlimAlarm :=
  { id := a.id, name := a.name, time := a.time, days := a.days,
    enabled := a.enabled, category := a.category,
    audioKey := a.audioKey, audioName := a.audioName }

/-- `syncAlarmsToSW` sends the slim-projected list (the message payload). -/
def syncAlarmsToSW (alarms : List AlarmRecord) : List SlimAlarm :=
  alarms.map slimProject

/-- Model of JS `String.prototype.endsWith`: the needle is a suffix. -/
def strEndsWith (s post : String) : Bool := decide (post.data <:+ s.data)

/-- `Array.isArray(alarm.days) && alarm.days.length > 0` (app.js line 231). -/
def hasDays (a : AlarmRecord) : Bool :=
  match a.days with
  | some ds => !ds.isEmpty
  | none => false

/-- Same check inside the service worker (`sw.js`, `checkSwAlarms`). -/
def hasDaysSlim (a : SlimAlarm) : Bool :=
  match a.days with
  | some ds => !ds.isEmpty
  | none => false

/-- The dedup key `alarm.id + '|' + currentMinute` (app.js line 234). -/
def firedKeyOf (a : AlarmRecord) (currentMinute : String) : String :=
  a.id ++ "|" ++ currentMinute

/-- The dedup key in the service worker (`sw.js`). -/
def firedKeyOfSlim (a : SlimAlarm) (currentMinute : String) : String :=
  a.id ++ "|" ++ currentMinute

/-- The minute-rollover purge (app.js lines 215-217 / sw.js): delete every
key `k` with `!k.endsWith('|' + currentMinute)`. -/
def purgeKeys (fk : List String) (currentMinute : String) : List String :=
  fk.filter (fun k => strEndsWith k ("|" ++ currentMinute))

/-- The conjunction of the four `continue` filters of the foreground scan
(app.js lines 227-235): enabled, exact `"HH:MM"` string match, day filter,
and the dedup key not yet recorded. -/
def passesFilters (a : AlarmRecord) (currentMinute : String) (currentDay : Nat)
    (fk : List String) : Bool :=
  a.enabled && a.time == currentMinute &&
    (!hasDays a || (a.days.getD []).contains currentDay) &&
    !fk.contains (firedKeyOf a currentMinute)

/-- The same four filters in the service worker scan (`sw.js`). -/
def passesFiltersSlim (a : SlimAlarm) (currentMinute : String) (currentDay : Nat)
    (fk : List String) : Bool :=
  a.enabled && a.time == currentMinute &&
    (!hasDaysSlim a || (a.days.getD []).contains currentDay) &&
    !fk.contains (firedKeyOfSlim a currentMinute)

/-- The one-shot auto-disable (app.js lines 241-242): mutates the matched
alarm object when it has no selected days. -/
def oneShotUpdate (a : AlarmRecord) : AlarmRecord :=
  if hasDays a then a else { a with enabled := false }

/-- Result of the foreground `for`-loop over `alarms` (app.js lines 226-247):
the possibly mutated alarm list, the updated `firedKeys`, and the alarm
passed to `fireAlarm` (if any). -/
structure ScanResult where
  alarms : List AlarmRecord
  keys : List String
  fired : Option AlarmRecord
deriving Repr

/-- The foreground scan loop: walk the stored order, skip alarms failing any
filter, and at the first alarm passing all filters record its key, fire it,
apply the one-shot mutation, and break. -/
def scanAlarms (currentMinute : String) (currentDay : Nat) (fk : List String) :
    List AlarmRecord → ScanResult
  | [] => { alarms := [], keys := fk, fired := none }
  | a :: rest =>
    if passesFilters a currentMinute currentDay fk then
      { alarms := oneShotUpdate a :: rest,
        keys := firedKeyOf a currentMinute :: fk,
        fired := some a }
    else
      let r := scanAlarms currentMinute currentDay fk rest
      { alarms := a :: r.alarms, keys := r.keys, fired := r.fired }

/-- The foreground scheduler's module-level state (app.js lines 100-117). -/
structure FgState where
  alarms : List AlarmRecord
  firedKeys : List String
  lastCheckedMinute : Option String
  currentRinging : Option AlarmRecord
deriving Repr

/-- Result of one foreground tick: the new state, the alarm handed to
`fireAlarm` (if any), and whether the one-shot branch ran
`saveAlarms()`/`renderAlarms()` this tick. -/
structure FgTickResult where
  state : FgState
  fired : Option AlarmRecord
  saved : Bool
deriving Repr

/-- `tickAlarms(now, hh, mm)` (app.js lines 207-248): purge on minute
rollover, the 4-second window gate, the reentrancy gate, then the scan. -/
def tickAlarms (st : FgState) (currentMinute : String) (currentDay : Nat)
    (ss : Nat) : FgTickResult :=
  let st1 :=
    if st.lastCheckedMinute = some currentMinute then st
    else { st with lastCheckedMinute := some currentMinute,
                   firedKeys := purgeKeys st.firedKeys currentMinute }
  if 4 < ss then { state := st1, fired := none, saved := false }
  else if st1.currentRinging.isSome then { state := st1, fired := none, saved := false }
  else
    let r := scanAlarms currentMinute currentDay st1.firedKeys st1.alarms
    { state :=
        { st1 with
          alarms := r.alarms,
          firedKeys := r.keys,
          currentRinging :=
            match r.fired with
            | some a => some (oneShotUpdate a)
            | none => st1.currentRinging },
      fired := r.fired,
      saved :=
        match r.fired with
        | some a => !hasDays a
        | none => false }

/-- The service worker's module-level state (`swAlarms`, `swFiredKeys`,
`swLastMinute` in sw.js). -/
structure SwState where
  swAlarms : List SlimAlarm
  swFiredKeys : List String
  swLastMinute : Option String
deriving Repr

/-- Result of one background tick: the new state and the alarm passed to
`showAlarmNotification` (if any). -/
structure SwTickResult where
  state : SwState
  fired : Option SlimAlarm
deriving Repr

/-- `checkSwAlarms()` (sw.js): purge on minute rollover, the 30-second window
gate, then the scan.  The loop body performs no mutation of the alarm list
and has no reentrancy gate, so the scan is the first alarm passing all
filters. -/
def checkSwAlarms (st : SwState) (currentMinute : String) (currentDay : Nat)
    (ss : Nat) : SwTickResult :=
  let st1 :=
    if st.swLastMinute = some currentMinute then st
    else { st with swLastMinute := some currentMinute,
                   swFiredKeys := purgeKeys st.swFiredKeys currentMinute }
  if 30 < ss then { state := st1, fired := none }
  else
    match st1.swAlarms.find? (fun a => passesFiltersSlim a currentMinute currentDay st1.swFiredKeys) with
    | some a =>
      { state := { st1 with swFiredKeys := firedKeyOfSlim a currentMinute :: st1.swFiredKeys },
        fired := some a }
    | none => { state := st1, fired := none }

/-- One clock observation handed to a tick: the `"HH:MM"` minute string,
`getDay()`, and `getSeconds()`. -/
structure TickInput where
  cm : String
  cd : Nat
  ss : Nat
deriving Repr

/-- The state part of `dismissAlarm` (app.js lines 301-305) on the scheduler
state: clear the ringing reference. -/
def dismissState (st : FgState) : FgState :=
  { st with currentRinging := none }

/-- An event of the foreground loop: a clock tick, or the user dismissing the
ringing alarm. -/
inductive FgEvent where
  | tick (t : TickInput)
  | dismiss
deriving Repr

/-- Run a sequence of foreground events, collecting the alarms handed to
`fireAlarm` in order. -/
def runFgEvents (st : FgState) : List FgEvent → FgState × List AlarmRecord
  | [] => (st, [])
  | FgEvent.tick t :: es =>
    let r := tickAlarms st t.cm t.cd t.ss
    let rest := runFgEvents r.state es
    (rest.1, match r.fired with
             | some a => a :: rest.2
             | none => rest.2)
  | FgEvent.dismiss :: es => runFgEvents (dismissState st) es

/-- Run a sequence of background ticks, collecting the fired alarms in order. -/
def runSwTicks (st : SwState) : List TickInput → SwState × List SlimAlarm
  | [] => (st, [])
  | t :: ts =>
    let r := checkSwAlarms st t.cm t.cd t.ss
    let rest := runSwTicks r.state ts
    (rest.1, match r.fired with
             | some a => a :: rest.2
             | none => rest.2)

/-! ## Ringing sequence and audio fallback (app.js `fireAlarm`, `dismissAlarm`,
`stopCurrentAudio`, `playBeepFallback`) -/

/-- Outcome of the blob-store lookup `getAudioFromDB(audioKey)` inside
`fireAlarm`: the promise resolves to a blob, resolves to null, or rejects. -/
inductive BlobFetch where
  | found
  | missing
  | errored
deriving DecidableEq, Repr

/-- Environment facts the ringing sequence depends on: whether each
`audio.play()` promise resolves, the blob-store outcome, and whether
`window.AudioContext` exists and constructs without throwing. -/
structure AudioEnv where
  inlinePlayOk : Bool
  blobFetch : BlobFetch
  blobPlayOk : Bool
  hasAudioCtx : Bool
  ctxConstructOk : Bool
deriving DecidableEq, Repr

/-- What ends up audible after `fireAlarm`'s audio resolution. -/
inductive AudioOutcome where
  | inlineAudio
  | blobAudio
  | beep
  | silent
deriving DecidableEq, Repr

/-- `playBeepFallback()` (app.js lines 322-347): silent when
`window.AudioContext` is absent (`if (!Ctx) return`) or `new Ctx()` throws;
otherwise the oscillator beep loop starts. -/
def playBeepFallback (env : AudioEnv) : AudioOutcome :=
  if env.hasAudioCtx && env.ctxConstructOk then AudioOutcome.beep
  else AudioOutcome.silent

/-- The audio-source resolution of `fireAlarm` (app.js lines 266-298) applied
to the full alarm record: inline data URL first, else blob-store lookup by
`audioKey`, else the beep fallback; every failure branch calls
`playBeepFallback()`. -/
def resolveAudio (fullAlarm : AlarmRecord) (env : AudioEnv) : AudioOutcome :=
  match fullAlarm.audioDataUrl with
  | some _ =>
    if env.inlinePlayOk then AudioOutcome.inlineAudio else playBeepFallback env
  | none =>
    match fullAlarm.audioKey with
    | some _ =>
      match env.blobFetch with
      | BlobFetch.found =>
        if env.blobPlayOk then AudioOutcome.blobAudio else playBeepFallback env
      | BlobFetch.missing => playBeepFallback env
      | BlobFetch.errored => playBeepFallback env
    | none => playBeepFallback env

/-- The `fullAlarm` lookup of `fireAlarm` (app.js line 264):
`alarms.find(a => a.id === alarm.id) || alarm`. -/
def fullAlarmFor (alarms : List AlarmRecord) (alarm : AlarmRecord) : AlarmRecord :=
  (alarms.find? (fun a => a.id == alarm.id)).getD alarm

/-- The whole audio resolution of a fire for a possibly-slim alarm argument. -/
def resolveFireAudio (alarms : List AlarmRecord) (alarm : AlarmRecord)
    (env : AudioEnv) : AudioOutcome :=
  resolveAudio (fullAlarmFor alarms alarm) env

/-- The foreground ringing UI / audio-output state touched by `fireAlarm`
and `dismissAlarm`. -/
structure RingUi where
  overlayHidden : Bool
  activeAudioEl : Bool
  activeObjectUrl : Bool
  beepOn : Bool
deriving DecidableEq, Repr

/-- `stopCurrentAudio()` (app.js lines 310-320): pause and drop the audio
element, revoke the object URL, stop the beep loop. -/
def stopCurrentAudio (ui : RingUi) : RingUi :=
  { ui with activeAudioEl := false, activeObjectUrl := false, beepOn := false }

/-- Apply the resolved audio outcome to the UI state (which handles become
live after `fireAlarm`). -/
def startOutcome (ui : RingUi) : AudioOutcome → RingUi
  | AudioOutcome.inlineAudio => { ui with activeAudioEl := true }
  | AudioOutcome.blobAudio => { ui with activeAudioEl := true, activeObjectUrl := true }
  | AudioOutcome.beep => { ui with beepOn := true }
  | AudioOutcome.silent => ui

/-- `fireAlarm(alarm)` (app.js lines 251-299): set the ringing reference,
reveal the overlay, stop current audio, then resolve and start the audio
source.  It reads but never writes `alarms`, `firedKeys` or
`lastCheckedMinute`. -/
def fireAlarm (st : FgState) (ui : RingUi) (alarm : AlarmRecord)
    (env : AudioEnv) : FgState × RingUi × AudioOutcome :=
  let outcome := resolveFireAudio st.alarms alarm env
  ({ st with currentRinging := some alarm },
   startOutcome (stopCurrentAudio { ui with overlayHidden := false }) outcome,
   outcome)

/-- `dismissAlarm()` (app.js lines 301-305): hide the overlay, stop all audio
output, clear the ringing reference. -/
def dismissAlarm (st : FgState) (ui : RingUi) : FgState × RingUi :=
  (dismissState st, stopCurrentAudio { ui with overlayHidden := true })

/-- The `ALARM_FIRED` branch of `onSwMessage` (app.js lines 29-33): fire the
delivered alarm only when nothing is currently ringing. -/
def onSwAlarmFired (st : FgState) (ui : RingUi) (alarm : AlarmRecord)
    (env : AudioEnv) : FgState × RingUi :=
  if st.currentRinging.isSome then (st, ui)
  else
    let r := fireAlarm st ui alarm env
    (r.1, r.2.1)

/-- Embedding of a slim alarm back into a record as received by the page from
an `ALARM_FIRED` message: the `audioDataUrl` key is absent. -/
def slimToRecord (a : SlimAlarm) : AlarmRecord :=
  { id := a.id, name := a.name, time := a.time, days := a.days,
    enabled := a.enabled, category := a.category,
    audioKey := a.audioKey, audioDataUrl := none, audioName := a.audioName }

/-! ## Persistence (`loadAlarms`, app.js lines 163-173) -/

/-- A JSON value, as produced by `JSON.parse`. -/
inductive JsValue where
  | jnull
  | jbool (b : Bool)
  | jnum (n : Int)
  | jstr (s : String)
  | jarr (xs : List JsValue)
  | jobj (fields : List (String × JsValue))

/-- Outcome of `JSON.parse(raw)`: a value, or a thrown `SyntaxError`. -/
inductive ParseResult where
  | ok (v : JsValue)
  | err

/-- `loadAlarms()` (app.js lines 163-173), parameterised by the stored value
(`localStorage.getItem` returns null or a string; `!raw` is also true for the
empty string) and by the behaviour of `JSON.parse`.  The `try/catch` catches
a parse throw and returns `[]`; a parsed non-array also returns `[]`. -/
def loadAlarms (raw : Option String) (parse : String → ParseResult) : List JsValue :=
  match raw with
  | none => []
  | some s =>
    if s = "" then []
    else
      match parse s with
      | ParseResult.err => []
      | ParseResult.ok v =>
        match v with
        | JsValue.jarr xs => xs
        | _ => []

/-! ## Derived notions used by the statements -/

/-- The foreground `firedKeys` set right after the rollover purge of a tick
observing `cm` (the set the scan of that tick consults). -/
def rolledKeys (st : FgState) (cm : String) : List String :=
  if st.lastCheckedMinute = some cm then st.firedKeys
  else purgeKeys st.firedKeys cm

/-- The background `swFiredKeys` set right after the rollover purge of a tick
observing `cm`. -/
def rolledSwKeys (st : SwState) (cm : String) : List String :=
  if st.swLastMinute = some cm then st.swFiredKeys
  else purgeKeys st.swFiredKeys cm

/-- The minute-suffix invariant of a dedup-key set: every stored key ends in
`'|' + m` where `m` is the remembered last-seen minute. -/
def keyInv (fk : List String) (lastM : Option String) : Prop :=
  ∀ k ∈ fk, ∃ m, lastM = some m ∧ strEndsWith k ("|" ++ m) = true

/-- Sample one-shot alarm used to instantiate proved theorems. -/
def alarmA : AlarmRecord :=
  { id := "a1", name := "Alarm", time := "07:00", days := some [],
    enabled := true, category := "regular",
    audioKey := none, audioDataUrl := none, audioName := none }

/-- Second sample one-shot alarm at the same time. -/
def alarmB : AlarmRecord :=
  { alarmA with id := "b2" }

/-- Sample recurring alarm (fires on Mondays). -/
def alarmMon : AlarmRecord :=
  { alarmA with id := "m3", time := "08:30", days := some [1] }

/-- Sample one-shot alarm at "08:30" (the spec's window-gate example). -/
def alarm0830 : AlarmRecord :=
  { alarmA with id := "c4", time := "08:30" }

/-- Sample recurring slim alarm for background-scheduler instantiations. -/
def slimMon : SlimAlarm :=
  slimProject alarmMon

/-- A fresh foreground state over a given alarm list (the module-level
initial values of app.js: empty `firedKeys`, null `lastCheckedMinute`, no
ringing alarm). -/
def mkFgState (l : List AlarmRecord) : FgState :=
  { alarms := l, firedKeys := [], lastCheckedMinute := none, currentRinging := none }

/-- A fresh service-worker state over a given slim alarm list. -/
def mkSwState (l : List SlimAlarm) : SwState :=
  { swAlarms := l, swFiredKeys := [], swLastMinute := none }

/-- A foreground state mid-minute 07:00 with the sample alarm's key already
recorded (used to instantiate invariant theorems). -/
def fgStKeyed : FgState :=
  { alarms := [alarmA], firedKeys := [firedKeyOf alarmA "07:00"],
    lastCheckedMinute := some "07:00", currentRinging := none }

/-- The matching service-worker state mid-minute 07:00. -/
def swStKeyed : SwState :=
  { swAlarms := [slimProject alarmA],
    swFiredKeys := [firedKeyOfSlim (slimProject alarmA) "07:00"],
    swLastMinute := some "07:00" }

/-- The initial ringing UI state (overlay hidden, no audio handles). -/
def uiInit : RingUi :=
  { overlayHidden := true, activeAudioEl := false, activeObjectUrl := false,
    beepOn := false }

/-! ## Lemmas about keys and the purge -/

theorem strEndsWith_append (s post : String) : strEndsWith (s ++ post) post = true := by
  simp [strEndsWith, String.data_append]

theorem firedKeyOf_endsWith (a : AlarmRecord) (cm : String) :
    strEndsWith (firedKeyOf a cm) ("|" ++ cm) = true := by
  simp [strEndsWith, firedKeyOf, String.data_append, List.append_assoc]

theorem firedKeyOfSlim_endsWith (a : SlimAlarm) (cm : String) :
    strEndsWith (firedKeyOfSlim a cm) ("|" ++ cm) = true := by
  simp [strEndsWith, firedKeyOfSlim, String.data_append, List.append_assoc]

theorem mem_purgeKeys_of_endsWith {k : String} {fk : List String} {cm : String}
    (hk : k ∈ fk) (he : strEndsWith k ("|" ++ cm) = true) :
    k ∈ purgeKeys fk cm := by
  simp [purgeKeys, List.mem_filter, hk, he]

theorem endsWith_of_mem_purgeKeys {k : String} {fk : List String} {cm : String}
    (hk : k ∈ purgeKeys fk cm) : strEndsWith k ("|" ++ cm) = true := by
  have h := List.mem_filter.mp hk
  exact h.2

theorem notMem_purgeKeys {k : String} {fk : List String} {cm : String}
    (he : strEndsWith k ("|" ++ cm) = false) : k ∉ purgeKeys fk cm := by
  intro h
  have := endsWith_of_mem_purgeKeys h
  rw [he] at this
  exact Bool.false_ne_true this

/-! ## Lemmas about the foreground scan -/

theorem enabled_of_passes {a : AlarmRecord} {cm : String} {cd : Nat}
    {fk : List String} (h : passesFilters a cm cd fk = true) : a.enabled = true := by
  simp only [passesFilters, Bool.and_eq_true] at h
  exact h.1.1.1

theorem key_notMem_of_passes {a : AlarmRecord} {cm : String} {cd : Nat}
    {fk : List String} (h : passesFilters a cm cd fk = true) :
    firedKeyOf a cm ∉ fk := by
  simp only [passesFilters, Bool.and_eq_true, Bool.not_eq_true'] at h
  have h2 := h.2
  simpa using h2

theorem scanAlarms_fired (cm : String) (cd : Nat) (fk : List String)
    (l : List AlarmRecord) :
    (scanAlarms cm cd fk l).fired = l.find? (fun a => passesFilters a cm cd fk) := by
  induction l with
  | nil => rfl
  | cons a rest ih =>
    cases h : passesFilters a cm cd fk with
    | true => simp [scanAlarms, h, List.find?_cons_of_pos]
    | false => simp [scanAlarms, h, List.find?_cons_of_neg, ih]

theorem scanAlarms_keys (cm : String) (cd : Nat) (fk : List String)
    (l : List AlarmRecord) :
    (scanAlarms cm cd fk l).keys =
      match (scanAlarms cm cd fk l).fired with
      | some a => firedKeyOf a cm :: fk
      | none => fk := by
  induction l with
  | nil => rfl
  | cons a rest ih =>
    cases h : passesFilters a cm cd fk with
    | true => simp [scanAlarms, h]
    | false => simpa [scanAlarms, h] using ih

theorem scanAlarms_alarms_of_none {cm : String} {cd : Nat} {fk : List String}
    {l : List AlarmRecord} (h : (scanAlarms cm cd fk l).fired = none) :
    (scanAlarms cm cd fk l).alarms = l := by
  induction l with
  | nil => rfl
  | cons a rest ih =>
    cases hp : passesFilters a cm cd fk with
    | true => simp [scanAlarms, hp] at h
    | false =>
      simp [scanAlarms, hp] at h ⊢
      exact ih h

theorem scanAlarms_mem_of_fired {cm : String} {cd : Nat} {fk : List String}
    {l : List AlarmRecord} {a : AlarmRecord}
    (h : (scanAlarms cm cd fk l).fired = some a) :
    oneShotUpdate a ∈ (scanAlarms cm cd fk l).alarms := by
  induction l with
  | nil => simp [scanAlarms] at h
  | cons b rest ih =>
    cases hp : passesFilters b cm cd fk with
    | true =>
      simp [scanAlarms, hp] at h ⊢
      simp [h]
    | false =>
      simp [scanAlarms, hp] at h ⊢
      exact Or.inr (ih h)

theorem scanAlarms_preserves_disabled {cm : String} {cd : Nat} {fk : List String}
    {l : List AlarmRecord} {i : Nat} {b : AlarmRecord}
    (hb : l[i]? = some b) (hdis : b.enabled = false) :
    (scanAlarms cm cd fk l).alarms[i]? = some b := by
  induction l generalizing i with
  | nil => simp at hb
  | cons a rest ih =>
    cases hp : passesFilters a cm cd fk with
    | true =>
      cases i with
      | zero =>
        simp only [List.getElem?_cons_zero, Option.some.injEq] at hb
        subst hb
        rw [enabled_of_passes hp] at hdis
        exact absurd hdis (by simp)
      | succ n =>
        simp only [List.getElem?_cons_succ] at hb
        simp [scanAlarms, hp, List.getElem?_cons_succ, hb]
    | false =>
      cases i with
      | zero =>
        simp only [List.getElem?_cons_zero] at hb
        simp [scanAlarms, hp, List.getElem?_cons_zero, hb]
      | succ n =>
        simp only [List.getElem?_cons_succ] at hb
        simp [scanAlarms, hp, List.getElem?_cons_succ]
        exact ih hb

/-! ## Lemmas about one foreground tick -/

theorem mem_rolledKeys {k : String} {st : FgState} {cm : String}
    (hk : k ∈ st.firedKeys) (he : strEndsWith k ("|" ++ cm) = true) :
    k ∈ rolledKeys st cm := by
  unfold rolledKeys
  split
  · exact hk
  · exact mem_purgeKeys_of_endsWith hk he

theorem tickAlarms_late (st : FgState) (cm : String) (cd ss : Nat) (hs : 4 < ss) :
    tickAlarms st cm cd ss =
      { state := { st with lastCheckedMinute := some cm, firedKeys := rolledKeys st cm },
        fired := none, saved := false } := by
  rcases st with ⟨al, fk, lm, cr⟩
  unfold tickAlarms rolledKeys
  by_cases h : lm = some cm <;> simp [h, hs]

theorem tickAlarms_ringGate (st : FgState) (cm : String) (cd ss : Nat)
    (hs : ¬ 4 < ss) (hr : st.currentRinging.isSome = true) :
    tickAlarms st cm cd ss =
      { state := { st with lastCheckedMinute := some cm, firedKeys := rolledKeys st cm },
        fired := none, saved := false } := by
  rcases st with ⟨al, fk, lm, cr⟩
  unfold tickAlarms rolledKeys
  by_cases h : lm = some cm <;> simp [h, hs, hr]

theorem tickAlarms_open (st : FgState) (cm : String) (cd ss : Nat)
    (hs : ¬ 4 < ss) (hr : st.currentRinging = none) :
    tickAlarms st cm cd ss =
      { state :=
          { alarms := (scanAlarms cm cd (rolledKeys st cm) st.alarms).alarms,
            firedKeys := (scanAlarms cm cd (rolledKeys st cm) st.alarms).keys,
            lastCheckedMinute := some cm,
            currentRinging :=
              match (scanAlarms cm cd (rolledKeys st cm) st.alarms).fired with
              | some a => some (oneShotUpdate a)
              | none => none },
        fired := (scanAlarms cm cd (rolledKeys st cm) st.alarms).fired,
        saved :=
          match (scanAlarms cm cd (rolledKeys st cm) st.alarms).fired with
          | some a => !hasDays a
          | none => false } := by
  rcases st with ⟨al, fk, lm, cr⟩
  subst hr
  unfold tickAlarms rolledKeys
  by_cases h : lm = some cm <;> simp [h, hs]

theorem ringing_none_of_not_isSome {o : Option AlarmRecord}
    (h : ¬ o.isSome = true) : o = none := by
  cases o with
  | none => rfl
  | some a => simp at h

theorem tickAlarms_lastChecked (st : FgState) (cm : String) (cd ss : Nat) :
    (tickAlarms st cm cd ss).state.lastCheckedMinute = some cm := by
  by_cases hs : 4 < ss
  · rw [tickAlarms_late st cm cd ss hs]
  by_cases hr : st.currentRinging.isSome = true
  · rw [tickAlarms_ringGate st cm cd ss hs hr]
  · rw [tickAlarms_open st cm cd ss hs (ringing_none_of_not_isSome hr)]

theorem tickAlarms_fired_eq (st : FgState) (cm : String) (cd ss : Nat)
    (hss : ¬ 4 < ss) (hring : st.currentRinging = none) :
    (tickAlarms st cm cd ss).fired =
      st.alarms.find? (fun a => passesFilters a cm cd (rolledKeys st cm)) := by
  rw [tickAlarms_open st cm cd ss hss hring]
  exact scanAlarms_fired cm cd (rolledKeys st cm) st.alarms

theorem tickAlarms_fired_none_of_late {st : FgState} {cm : String} {cd ss : Nat}
    (h : 4 < ss) : (tickAlarms st cm cd ss).fired = none := by
  rw [tickAlarms_late st cm cd ss h]

theorem tickAlarms_fired_none_of_ringing {st : FgState} {cm : String} {cd ss : Nat}
    (h : st.currentRinging.isSome = true) : (tickAlarms st cm cd ss).fired = none := by
  by_cases hs : 4 < ss
  · rw [tickAlarms_late st cm cd ss hs]
  · rw [tickAlarms_ringGate st cm cd ss hs h]

theorem tickAlarms_fired_passes {st : FgState} {cm : String} {cd ss : Nat}
    {b : AlarmRecord} (h : (tickAlarms st cm cd ss).fired = some b) :
    passesFilters b cm cd (rolledKeys st cm) = true ∧ b ∈ st.alarms := by
  by_cases hs : 4 < ss
  · rw [tickAlarms_fired_none_of_late hs] at h; exact absurd h (by simp)
  by_cases hr : st.currentRinging.isSome = true
  · rw [tickAlarms_fired_none_of_ringing hr] at h; exact absurd h (by simp)
  · rw [tickAlarms_open st cm cd ss hs (ringing_none_of_not_isSome hr)] at h
    simp only [] at h
    rw [scanAlarms_fired] at h
    have h1 := List.find?_some h
    have h2 := List.mem_of_find?_eq_some h
    exact ⟨h1, h2⟩

theorem tickAlarms_keys_of_fired {st : FgState} {cm : String} {cd ss : Nat}
    {b : AlarmRecord} (h : (tickAlarms st cm cd ss).fired = some b) :
    (tickAlarms st cm cd ss).state.firedKeys = firedKeyOf b cm :: rolledKeys st cm := by
  by_cases hs : 4 < ss
  · rw [tickAlarms_fired_none_of_late hs] at h; exact absurd h (by simp)
  by_cases hr : st.currentRinging.isSome = true
  · rw [tickAlarms_fired_none_of_ringing hr] at h; exact absurd h (by simp)
  · rw [tickAlarms_open st cm cd ss hs (ringing_none_of_not_isSome hr)] at h ⊢
    simp only [] at h ⊢
    rw [scanAlarms_keys, h]

theorem tickAlarms_keys_of_none {st : FgState} {cm : String} {cd ss : Nat}
    (h : (tickAlarms st cm cd ss).fired = none) :
    (tickAlarms st cm cd ss).state.firedKeys = rolledKeys st cm := by
  by_cases hs : 4 < ss
  · rw [tickAlarms_late st cm cd ss hs]
  by_cases hr : st.currentRinging.isSome = true
  · rw [tickAlarms_ringGate st cm cd ss hs hr]
  · rw [tickAlarms_open st cm cd ss hs (ringing_none_of_not_isSome hr)] at h ⊢
    simp only [] at h ⊢
    rw [scanAlarms_keys, h]

theorem tickAlarms_alarms_of_none {st : FgState} {cm : String} {cd ss : Nat}
    (h : (tickAlarms st cm cd ss).fired = none) :
    (tickAlarms st cm cd ss).state.alarms = st.alarms := by
  by_cases hs : 4 < ss
  · rw [tickAlarms_late st cm cd ss hs]
  by_cases hr : st.currentRinging.isSome = true
  · rw [tickAlarms_ringGate st cm cd ss hs hr]
  · rw [tickAlarms_open st cm cd ss hs (ringing_none_of_not_isSome hr)] at h ⊢
    simp only [] at h ⊢
    exact scanAlarms_alarms_of_none h

theorem tickAlarms_ringing_of_none {st : FgState} {cm : String} {cd ss : Nat}
    (h : (tickAlarms st cm cd ss).fired = none) :
    (tickAlarms st cm cd ss).state.currentRinging = st.currentRinging := by
  by_cases hs : 4 < ss
  · rw [tickAlarms_late st cm cd ss hs]
  by_cases hr : st.currentRinging.isSome = true
  · rw [tickAlarms_ringGate st cm cd ss hs hr]
  · have hn := ringing_none_of_not_isSome hr
    rw [tickAlarms_open st cm cd ss hs hn] at h ⊢
    simp only [] at h ⊢
    rw [h, hn]

theorem tickAlarms_ringing_of_fired {st : FgState} {cm : String} {cd ss : Nat}
    {b : AlarmRecord} (h : (tickAlarms st cm cd ss).fired = some b) :
    (tickAlarms st cm cd ss).state.currentRinging = some (oneShotUpdate b) := by
  by_cases hs : 4 < ss
  · rw [tickAlarms_fired_none_of_late hs] at h; exact absurd h (by simp)
  by_cases hr : st.currentRinging.isSome = true
  · rw [tickAlarms_fired_none_of_ringing hr] at h; exact absurd h (by simp)
  · rw [tickAlarms_open st cm cd ss hs (ringing_none_of_not_isSome hr)] at h ⊢
    simp only [] at h ⊢
    rw [h]

theorem tickAlarms_saved_of_fired {st : FgState} {cm : String} {cd ss : Nat}
    {b : AlarmRecord} (h : (tickAlarms st cm cd ss).fired = some b) :
    (tickAlarms st cm cd ss).saved = !hasDays b := by
  by_cases hs : 4 < ss
  · rw [tickAlarms_fired_none_of_late hs] at h; exact absurd h (by simp)
  by_cases hr : st.currentRinging.isSome = true
  · rw [tickAlarms_fired_none_of_ringing hr] at h; exact absurd h (by simp)
  · rw [tickAlarms_open st cm cd ss hs (ringing_none_of_not_isSome hr)] at h ⊢
    simp only [] at h ⊢
    rw [h]

theorem tickAlarms_mem_of_fired {st : FgState} {cm : String} {cd ss : Nat}
    {b : AlarmRecord} (h : (tickAlarms st cm cd ss).fired = some b) :
    oneShotUpdate b ∈ (tickAlarms st cm cd ss).state.alarms := by
  by_cases hs : 4 < ss
  · rw [tickAlarms_fired_none_of_late hs] at h; exact absurd h (by simp)
  by_cases hr : st.currentRinging.isSome = true
  · rw [tickAlarms_fired_none_of_ringing hr] at h; exact absurd h (by simp)
  · rw [tickAlarms_open st cm cd ss hs (ringing_none_of_not_isSome hr)] at h ⊢
    simp only [] at h ⊢
    exact scanAlarms_mem_of_fired h

theorem tickAlarms_preserves_disabled {st : FgState} {cm : String} {cd ss : Nat}
    {i : Nat} {b : AlarmRecord}
    (hb : st.alarms[i]? = some b) (hdis : b.enabled = false) :
    (tickAlarms st cm cd ss).state.alarms[i]? = some b := by
  by_cases hs : 4 < ss
  · rw [tickAlarms_late st cm cd ss hs]; exact hb
  by_cases hr : st.currentRinging.isSome = true
  · rw [tickAlarms_ringGate st cm cd ss hs hr]; exact hb
  · rw [tickAlarms_open st cm cd ss hs (ringing_none_of_not_isSome hr)]
    exact scanAlarms_preserves_disabled hb hdis

theorem tickAlarms_key_mem {st : FgState} {cm : String} {cd ss : Nat} {k : String}
    (hk : k ∈ st.firedKeys) (he : strEndsWith k ("|" ++ cm) = true) :
    k ∈ (tickAlarms st cm cd ss).state.firedKeys := by
  have hroll : k ∈ rolledKeys st cm := mem_rolledKeys hk he
  cases h : (tickAlarms st cm cd ss).fired with
  | none => rw [tickAlarms_keys_of_none h]; exact hroll
  | some b => rw [tickAlarms_keys_of_fired h]; exact List.mem_cons_of_mem _ hroll

/-! ## Lemmas about one background (service worker) tick -/

theorem mem_rolledSwKeys {k : String} {st : SwState} {cm : String}
    (hk : k ∈ st.swFiredKeys) (he : strEndsWith k ("|" ++ cm) = true) :
    k ∈ rolledSwKeys st cm := by
  unfold rolledSwKeys
  split
  · exact hk
  · exact mem_purgeKeys_of_endsWith hk he

theorem checkSwAlarms_late (st : SwState) (cm : String) (cd ss : Nat) (hs : 30 < ss) :
    checkSwAlarms st cm cd ss =
      { state := { st with swLastMinute := some cm, swFiredKeys := rolledSwKeys st cm },
        fired := none } := by
  rcases st with ⟨al, fk, lm⟩
  unfold checkSwAlarms rolledSwKeys
  by_cases h : lm = some cm <;> simp [h, hs]

theorem checkSwAlarms_open (st : SwState) (cm : String) (cd ss : Nat)
    (hs : ¬ 30 < ss) :
    checkSwAlarms st cm cd ss =
      (match st.swAlarms.find? (fun a => passesFiltersSlim a cm cd (rolledSwKeys st cm)) with
      | some a =>
        { state := { swAlarms := st.swAlarms,
                     swFiredKeys := firedKeyOfSlim a cm :: rolledSwKeys st cm,
                     swLastMinute := some cm },
          fired := some a }
      | none =>
        { state := { swAlarms := st.swAlarms,
                     swFiredKeys := rolledSwKeys st cm,
                     swLastMinute := some cm },
          fired := none }) := by
  rcases st with ⟨al, fk, lm⟩
  unfold checkSwAlarms rolledSwKeys
  by_cases h : lm = some cm <;> simp [h, hs]

theorem checkSwAlarms_swAlarms (st : SwState) (cm : String) (cd ss : Nat) :
    (checkSwAlarms st cm cd ss).state.swAlarms = st.swAlarms := by
  by_cases hs : 30 < ss
  · rw [checkSwAlarms_late st cm cd ss hs]
  · rw [checkSwAlarms_open st cm cd ss hs]
    cases st.swAlarms.find? (fun a => passesFiltersSlim a cm cd (rolledSwKeys st cm)) <;> rfl

theorem checkSwAlarms_lastMinute (st : SwState) (cm : String) (cd ss : Nat) :
    (checkSwAlarms st cm cd ss).state.swLastMinute = some cm := by
  by_cases hs : 30 < ss
  · rw [checkSwAlarms_late st cm cd ss hs]
  · rw [checkSwAlarms_open st cm cd ss hs]
    cases st.swAlarms.find? (fun a => passesFiltersSlim a cm cd (rolledSwKeys st cm)) <;> rfl

theorem checkSwAlarms_fired_eq (st : SwState) (cm : String) (cd ss : Nat)
    (hs : ¬ 30 < ss) :
    (checkSwAlarms st cm cd ss).fired =
      st.swAlarms.find? (fun a => passesFiltersSlim a cm cd (rolledSwKeys st cm)) := by
  rw [checkSwAlarms_open st cm cd ss hs]
  cases st.swAlarms.find? (fun a => passesFiltersSlim a cm cd (rolledSwKeys st cm)) <;> rfl

theorem checkSwAlarms_fired_none_of_late {st : SwState} {cm : String} {cd ss : Nat}
    (hs : 30 < ss) : (checkSwAlarms st cm cd ss).fired = none := by
  rw [checkSwAlarms_late st cm cd ss hs]

theorem checkSwAlarms_fired_passes {st : SwState} {cm : String} {cd ss : Nat}
    {b : SlimAlarm} (h : (checkSwAlarms st cm cd ss).fired = some b) :
    passesFiltersSlim b cm cd (rolledSwKeys st cm) = true ∧ b ∈ st.swAlarms := by
  by_cases hs : 30 < ss
  · rw [checkSwAlarms_fired_none_of_late hs] at h; exact absurd h (by simp)
  · rw [checkSwAlarms_fired_eq st cm cd ss hs] at h
    have h1 := List.find?_some h
    have h2 := List.mem_of_find?_eq_some h
    exact ⟨h1, h2⟩

theorem checkSwAlarms_keys_of_fired {st : SwState} {cm : String} {cd ss : Nat}
    {b : SlimAlarm} (h : (checkSwAlarms st cm cd ss).fired = some b) :
    (checkSwAlarms st cm cd ss).state.swFiredKeys =
      firedKeyOfSlim b cm :: rolledSwKeys st cm := by
  by_cases hs : 30 < ss
  · rw [checkSwAlarms_fired_none_of_late hs] at h; exact absurd h (by simp)
  · rw [checkSwAlarms_open st cm cd ss hs] at h ⊢
    cases hf : st.swAlarms.find? (fun a => passesFiltersSlim a cm cd (rolledSwKeys st cm)) with
    | none => rw [hf] at h; exact Option.noConfusion h
    | some a =>
      rw [hf] at h
      have h2 : a = b := Option.some.inj h
      subst h2
      rfl

theorem checkSwAlarms_keys_of_none {st : SwState} {cm : String} {cd ss : Nat}
    (h : (checkSwAlarms st cm cd ss).fired = none) :
    (checkSwAlarms st cm cd ss).state.swFiredKeys = rolledSwKeys st cm := by
  by_cases hs : 30 < ss
  · rw [checkSwAlarms_late st cm cd ss hs]
  · rw [checkSwAlarms_open st cm cd ss hs] at h ⊢
    cases hf : st.swAlarms.find? (fun a => passesFiltersSlim a cm cd (rolledSwKeys st cm)) with
    | none => rfl
    | some a => rw [hf] at h; exact Option.noConfusion h

theorem checkSwAlarms_key_mem {st : SwState} {cm : String} {cd ss : Nat} {k : String}
    (hk : k ∈ st.swFiredKeys) (he : strEndsWith k ("|" ++ cm) = true) :
    k ∈ (checkSwAlarms st cm cd ss).state.swFiredKeys := by
  have hroll : k ∈ rolledSwKeys st cm := mem_rolledSwKeys hk he
  cases h : (checkSwAlarms st cm cd ss).fired with
  | none => rw [checkSwAlarms_keys_of_none h]; exact hroll
  | some b => rw [checkSwAlarms_keys_of_fired h]; exact List.mem_cons_of_mem _ hroll

theorem enabledSlim_of_passes {a : SlimAlarm} {cm : String} {cd : Nat}
    {fk : List String} (h : passesFiltersSlim a cm cd fk = true) : a.enabled = true := by
  simp only [passesFiltersSlim, Bool.and_eq_true] at h
  exact h.1.1.1

theorem keySlim_notMem_of_passes {a : SlimAlarm} {cm : String} {cd : Nat}
    {fk : List String} (h : passesFiltersSlim a cm cd fk = true) :
    firedKeyOfSlim a cm ∉ fk := by
  simp only [passesFiltersSlim, Bool.and_eq_true, Bool.not_eq_true'] at h
  have h2 := h.2
  simpa using h2

/-! ## Lemmas about runs of ticks -/

theorem key_endsWith (idStr m : String) :
    strEndsWith (idStr ++ "|" ++ m) ("|" ++ m) = true := by
  simp [strEndsWith, String.data_append, List.append_assoc]

theorem dismissState_alarms (st : FgState) : (dismissState st).alarms = st.alarms := rfl

theorem dismissState_keys (st : FgState) : (dismissState st).firedKeys = st.firedKeys := rfl

theorem runFgEvents_fired_enabled {st : FgState} {es : List FgEvent} {b : AlarmRecord}
    (hb : b ∈ (runFgEvents st es).2) : b.enabled = true := by
  induction es generalizing st with
  | nil => simp [runFgEvents] at hb
  | cons e rest ih =>
    cases e with
    | dismiss => exact ih hb
    | tick t =>
      simp only [runFgEvents] at hb
      cases hf : (tickAlarms st t.cm t.cd t.ss).fired with
      | none =>
        rw [hf] at hb
        exact ih hb
      | some a =>
        rw [hf] at hb
        rcases List.mem_cons.mp hb with h | h
        · subst h
          exact enabled_of_passes (tickAlarms_fired_passes hf).1
        · exact ih h

theorem runFgEvents_preserves_disabled {st : FgState} {es : List FgEvent}
    {i : Nat} {b : AlarmRecord}
    (hb : st.alarms[i]? = some b) (hdis : b.enabled = false) :
    (runFgEvents st es).1.alarms[i]? = some b := by
  induction es generalizing st with
  | nil => exact hb
  | cons e rest ih =>
    cases e with
    | dismiss => exact ih hb
    | tick t => exact ih (tickAlarms_preserves_disabled hb hdis)

theorem runFgEvents_no_fire_of_key {M aid : String} {st : FgState} {es : List FgEvent}
    (hM : ∀ t, FgEvent.tick t ∈ es → t.cm = M)
    (hk : (aid ++ "|" ++ M) ∈ st.firedKeys) :
    ∀ b ∈ (runFgEvents st es).2, b.id ≠ aid := by
  induction es generalizing st with
  | nil => intro b hb; simp [runFgEvents] at hb
  | cons e rest ih =>
    cases e with
    | dismiss =>
      exact ih (fun t ht => hM t (List.mem_cons_of_mem _ ht)) hk
    | tick t =>
      have hcm : t.cm = M := hM t (List.mem_cons_self _ _)
      intro b hb
      have hk2 : (aid ++ "|" ++ M) ∈ (tickAlarms st t.cm t.cd t.ss).state.firedKeys := by
        apply tickAlarms_key_mem hk
        rw [hcm]
        exact key_endsWith aid M
      simp only [runFgEvents] at hb
      cases hf : (tickAlarms st t.cm t.cd t.ss).fired with
      | none =>
        rw [hf] at hb
        exact ih (fun u hu => hM u (List.mem_cons_of_mem _ hu)) hk2 b hb
      | some a =>
        rw [hf] at hb
        rcases List.mem_cons.mp hb with h | h
        · subst h
          intro hid
          have hp := (tickAlarms_fired_passes hf).1
          have hnot := key_notMem_of_passes hp
          have : firedKeyOf b t.cm ∈ rolledKeys st t.cm := by
            apply mem_rolledKeys
            · unfold firedKeyOf
              rw [hid, hcm]
              exact hk
            · exact firedKeyOf_endsWith b t.cm
          exact hnot this
        · exact ih (fun u hu => hM u (List.mem_cons_of_mem _ hu)) hk2 b h

theorem runFgEvents_at_most_once {M aid : String} {st : FgState} {es : List FgEvent}
    (hM : ∀ t, FgEvent.tick t ∈ es → t.cm = M) :
    ((runFgEvents st es).2.filter (fun b => b.id == aid)).length ≤ 1 := by
  induction es generalizing st with
  | nil => simp [runFgEvents]
  | cons e rest ih =>
    cases e with
    | dismiss => exact ih (fun t ht => hM t (List.mem_cons_of_mem _ ht))
    | tick t =>
      have hcm : t.cm = M := hM t (List.mem_cons_self _ _)
      have hMrest : ∀ u, FgEvent.tick u ∈ rest → u.cm = M :=
        fun u hu => hM u (List.mem_cons_of_mem _ hu)
      simp only [runFgEvents]
      cases hf : (tickAlarms st t.cm t.cd t.ss).fired with
      | none => exact ih hMrest
      | some a =>
        by_cases hid : a.id = aid
        · have hk2 : (aid ++ "|" ++ M) ∈ (tickAlarms st t.cm t.cd t.ss).state.firedKeys := by
            rw [tickAlarms_keys_of_fired hf]
            have hkey : firedKeyOf a t.cm = aid ++ "|" ++ M := by
              unfold firedKeyOf
              rw [hid, hcm]
            rw [hkey]
            exact List.mem_cons_self _ _
          have hnone := runFgEvents_no_fire_of_key hMrest hk2
          have hfilter :
              ((runFgEvents (tickAlarms st t.cm t.cd t.ss).state rest).2.filter
                (fun b => b.id == aid)) = [] := by
            rw [List.filter_eq_nil_iff]
            intro b hb
            simp only [beq_iff_eq]
            exact hnone b hb
          simp [hf, List.filter_cons, hid, hfilter]
        · have : (a.id == aid) = false := by simp [hid]
          simp only [List.filter_cons, this]
          exact ih hMrest

theorem runFgEvents_no_fire_of_late {st : FgState} {es : List FgEvent}
    (h : ∀ t, FgEvent.tick t ∈ es → 4 < t.ss) :
    (runFgEvents st es).2 = [] := by
  induction es generalizing st with
  | nil => rfl
  | cons e rest ih =>
    cases e with
    | dismiss => exact ih (fun t ht => h t (List.mem_cons_of_mem _ ht))
    | tick t =>
      have hs : 4 < t.ss := h t (List.mem_cons_self _ _)
      simp only [runFgEvents, tickAlarms_fired_none_of_late hs]
      exact ih (fun u hu => h u (List.mem_cons_of_mem _ hu))

theorem runSwTicks_no_fire_of_key {M aid : String} {st : SwState} {ts : List TickInput}
    (hM : ∀ t ∈ ts, t.cm = M)
    (hk : (aid ++ "|" ++ M) ∈ st.swFiredKeys) :
    ∀ b ∈ (runSwTicks st ts).2, b.id ≠ aid := by
  induction ts generalizing st with
  | nil => intro b hb; simp [runSwTicks] at hb
  | cons t rest ih =>
    have hcm : t.cm = M := hM t (List.mem_cons_self _ _)
    intro b hb
    have hk2 : (aid ++ "|" ++ M) ∈ (checkSwAlarms st t.cm t.cd t.ss).state.swFiredKeys := by
      apply checkSwAlarms_key_mem hk
      rw [hcm]
      exact key_endsWith aid M
    simp only [runSwTicks] at hb
    cases hf : (checkSwAlarms st t.cm t.cd t.ss).fired with
    | none =>
      rw [hf] at hb
      exact ih (fun u hu => hM u (List.mem_cons_of_mem _ hu)) hk2 b hb
    | some a =>
      rw [hf] at hb
      rcases List.mem_cons.mp hb with h | h
      · subst h
        intro hid
        have hp := (checkSwAlarms_fired_passes hf).1
        have hnot := keySlim_notMem_of_passes hp
        have : firedKeyOfSlim b t.cm ∈ rolledSwKeys st t.cm := by
          apply mem_rolledSwKeys
          · unfold firedKeyOfSlim
            rw [hid, hcm]
            exact hk
          · exact firedKeyOfSlim_endsWith b t.cm
        exact hnot this
      · exact ih (fun u hu => hM u (List.mem_cons_of_mem _ hu)) hk2 b h

theorem runSwTicks_at_most_once {M aid : String} {st : SwState} {ts : List TickInput}
    (hM : ∀ t ∈ ts, t.cm = M) :
    ((runSwTicks st ts).2.filter (fun b => b.id == aid)).length ≤ 1 := by
  induction ts generalizing st with
  | nil => simp [runSwTicks]
  | cons t rest ih =>
    have hcm : t.cm = M := hM t (List.mem_cons_self _ _)
    have hMrest : ∀ u ∈ rest, u.cm = M :=
      fun u hu => hM u (List.mem_cons_of_mem _ hu)
    simp only [runSwTicks]
    cases hf : (checkSwAlarms st t.cm t.cd t.ss).fired with
    | none => exact ih hMrest
    | some a =>
      by_cases hid : a.id = aid
      · have hk2 : (aid ++ "|" ++ M) ∈ (checkSwAlarms st t.cm t.cd t.ss).state.swFiredKeys := by
          rw [checkSwAlarms_keys_of_fired hf]
          have hkey : firedKeyOfSlim a t.cm = aid ++ "|" ++ M := by
            unfold firedKeyOfSlim
            rw [hid, hcm]
          rw [hkey]
          exact List.mem_cons_self _ _
        have hnone := runSwTicks_no_fire_of_key hMrest hk2
        have hfilter :
            ((runSwTicks (checkSwAlarms st t.cm t.cd t.ss).state rest).2.filter
              (fun b => b.id == aid)) = [] := by
          rw [List.filter_eq_nil_iff]
          intro b hb
          simp only [beq_iff_eq]
          exact hnone b hb
        simp [hf, List.filter_cons, hid, hfilter]
      · have : (a.id == aid) = false := by simp [hid]
        simp only [List.filter_cons, this]
        exact ih hMrest

theorem runSwTicks_swAlarms (st : SwState) (ts : List TickInput) :
    (runSwTicks st ts).1.swAlarms = st.swAlarms := by
  induction ts generalizing st with
  | nil => rfl
  | cons t rest ih =>
    simp only [runSwTicks]
    rw [ih, checkSwAlarms_swAlarms]

/-! ## Minute-suffix invariant lemmas -/

theorem rolledKeys_endsWith {st : FgState} {cm : String}
    (hInv : keyInv st.firedKeys st.lastCheckedMinute) :
    ∀ k ∈ rolledKeys st cm, strEndsWith k ("|" ++ cm) = true := by
  intro k hk
  unfold rolledKeys at hk
  split at hk
  next h =>
    obtain ⟨m, hm, he⟩ := hInv k hk
    rw [h] at hm
    obtain rfl : cm = m := Option.some.inj hm
    exact he
  next h => exact endsWith_of_mem_purgeKeys hk

theorem tickAlarms_keys_endsWith {st : FgState} {cm : String} {cd ss : Nat}
    (hInv : keyInv st.firedKeys st.lastCheckedMinute) :
    ∀ k ∈ (tickAlarms st cm cd ss).state.firedKeys,
      strEndsWith k ("|" ++ cm) = true := by
  intro k hk
  cases hf : (tickAlarms st cm cd ss).fired with
  | none =>
    rw [tickAlarms_keys_of_none hf] at hk
    exact rolledKeys_endsWith hInv k hk
  | some b =>
    rw [tickAlarms_keys_of_fired hf] at hk
    rcases List.mem_cons.mp hk with h | h
    · subst h
      exact firedKeyOf_endsWith b cm
    · exact rolledKeys_endsWith hInv k h

theorem tickAlarms_key_evicted {st : FgState} {cm : String} {cd ss : Nat} {k : String}
    (hInv : keyInv st.firedKeys st.lastCheckedMinute)
    (he : strEndsWith k ("|" ++ cm) = false) :
    k ∉ (tickAlarms st cm cd ss).state.firedKeys := by
  intro hmem
  have h := tickAlarms_keys_endsWith hInv k hmem
  rw [he] at h
  exact Bool.false_ne_true h

theorem rolledSwKeys_endsWith {st : SwState} {cm : String}
    (hInv : keyInv st.swFiredKeys st.swLastMinute) :
    ∀ k ∈ rolledSwKeys st cm, strEndsWith k ("|" ++ cm) = true := by
  intro k hk
  unfold rolledSwKeys at hk
  split at hk
  next h =>
    obtain ⟨m, hm, he⟩ := hInv k hk
    rw [h] at hm
    obtain rfl : cm = m := Option.some.inj hm
    exact he
  next h => exact endsWith_of_mem_purgeKeys hk

theorem checkSwAlarms_keys_endsWith {st : SwState} {cm : String} {cd ss : Nat}
    (hInv : keyInv st.swFiredKeys st.swLastMinute) :
    ∀ k ∈ (checkSwAlarms st cm cd ss).state.swFiredKeys,
      strEndsWith k ("|" ++ cm) = true := by
  intro k hk
  cases hf : (checkSwAlarms st cm cd ss).fired with
  | none =>
    rw [checkSwAlarms_keys_of_none hf] at hk
    exact rolledSwKeys_endsWith hInv k hk
  | some b =>
    rw [checkSwAlarms_keys_of_fired hf] at hk
    rcases List.mem_cons.mp hk with h | h
    · subst h
      exact firedKeyOfSlim_endsWith b cm
    · exact rolledSwKeys_endsWith hInv k h

theorem checkSwAlarms_key_evicted {st : SwState} {cm : String} {cd ss : Nat} {k : String}
    (hInv : keyInv st.swFiredKeys st.swLastMinute)
    (he : strEndsWith k ("|" ++ cm) = false) :
    k ∉ (checkSwAlarms st cm cd ss).state.swFiredKeys := by
  intro hmem
  have h := checkSwAlarms_keys_endsWith hInv k hmem
  rw [he] at h
  exact Bool.false_ne_true h

/-! ## Claim theorems -/

/-- C1: On any single tick that passes the window gate (and, in the
foreground, the reentrancy gate), each scheduler fires exactly the first
alarm in stored order satisfying all four filters — enabled, exact minute
string match, empty days or current weekday included, and the
`(id, currentMinute)` dedup key not yet recorded (all relative to the
post-purge key set of this tick) — records exactly that key, and fires no
other alarm in the same tick (the fire output is a single `Option`; a
`List.find?` result is by definition the first list element satisfying the
predicate).  In particular, for two enabled alarms at the same time with no
day restriction, at most one fires per tick. -/
theorem tick_fires_first_eligible (st : FgState) (cm : String) (cd ss : Nat)
    (sst : SwState) (cm2 : String) (cd2 ss2 : Nat)
    (hss : ¬ 4 < ss) (hring : st.currentRinging = none) (hss2 : ¬ 30 < ss2) :
    ((tickAlarms st cm cd ss).fired =
        st.alarms.find? (fun a => passesFilters a cm cd (rolledKeys st cm)) ∧
      (∀ b, (tickAlarms st cm cd ss).fired = some b →
        (tickAlarms st cm cd ss).state.firedKeys =
          firedKeyOf b cm :: rolledKeys st cm) ∧
      ((tickAlarms st cm cd ss).fired = none →
        (tickAlarms st cm cd ss).state.firedKeys = rolledKeys st cm)) ∧
    ((checkSwAlarms sst cm2 cd2 ss2).fired =
        sst.swAlarms.find? (fun a => passesFiltersSlim a cm2 cd2 (rolledSwKeys sst cm2)) ∧
      (∀ b, (checkSwAlarms sst cm2 cd2 ss2).fired = some b →
        (checkSwAlarms sst cm2 cd2 ss2).state.swFiredKeys =
          firedKeyOfSlim b cm2 :: rolledSwKeys sst cm2) ∧
      ((checkSwAlarms sst cm2 cd2 ss2).fired = none →
        (checkSwAlarms sst cm2 cd2 ss2).state.swFiredKeys = rolledSwKeys sst cm2)) :=
  ⟨⟨tickAlarms_fired_eq st cm cd ss hss hring,
    fun _ hb => tickAlarms_keys_of_fired hb,
    fun hn => tickAlarms_keys_of_none hn⟩,
   ⟨checkSwAlarms_fired_eq sst cm2 cd2 ss2 hss2,
    fun _ hb => checkSwAlarms_keys_of_fired hb,
    fun hn => checkSwAlarms_keys_of_none hn⟩⟩

/-- Witness for C1 at a concrete input: a fresh foreground state holding two
enabled alarms both at "07:00" with empty days, tick at 07:00:00 on a
Monday; the service worker side with the slim projections of the same two
alarms.  The extra final conjuncts evaluate the conclusion: exactly the
first of the two alarms fires. -/
theorem tick_fires_first_eligible_witness :
    (¬ 4 < 0) ∧ (mkFgState [alarmA, alarmB]).currentRinging = none ∧ (¬ 30 < 0) ∧
    (((tickAlarms (mkFgState [alarmA, alarmB]) "07:00" 1 0).fired =
        (mkFgState [alarmA, alarmB]).alarms.find?
          (fun a => passesFilters a "07:00" 1 (rolledKeys (mkFgState [alarmA, alarmB]) "07:00")) ∧
      (∀ b, (tickAlarms (mkFgState [alarmA, alarmB]) "07:00" 1 0).fired = some b →
        (tickAlarms (mkFgState [alarmA, alarmB]) "07:00" 1 0).state.firedKeys =
          firedKeyOf b "07:00" :: rolledKeys (mkFgState [alarmA, alarmB]) "07:00") ∧
      ((tickAlarms (mkFgState [alarmA, alarmB]) "07:00" 1 0).fired = none →
        (tickAlarms (mkFgState [alarmA, alarmB]) "07:00" 1 0).state.firedKeys =
          rolledKeys (mkFgState [alarmA, alarmB]) "07:00")) ∧
    ((checkSwAlarms (mkSwState [slimProject alarmA, slimProject alarmB]) "07:00" 1 0).fired =
        (mkSwState [slimProject alarmA, slimProject alarmB]).swAlarms.find?
          (fun a => passesFiltersSlim a "07:00" 1
            (rolledSwKeys (mkSwState [slimProject alarmA, slimProject alarmB]) "07:00")) ∧
      (∀ b, (checkSwAlarms (mkSwState [slimProject alarmA, slimProject alarmB]) "07:00" 1 0).fired = some b →
        (checkSwAlarms (mkSwState [slimProject alarmA, slimProject alarmB]) "07:00" 1 0).state.swFiredKeys =
          firedKeyOfSlim b "07:00" ::
            rolledSwKeys (mkSwState [slimProject alarmA, slimProject alarmB]) "07:00") ∧
      ((checkSwAlarms (mkSwState [slimProject alarmA, slimProject alarmB]) "07:00" 1 0).fired = none →
        (checkSwAlarms (mkSwState [slimProject alarmA, slimProject alarmB]) "07:00" 1 0).state.swFiredKeys =
          rolledSwKeys (mkSwState [slimProject alarmA, slimProject alarmB]) "07:00"))) ∧
    (tickAlarms (mkFgState [alarmA, alarmB]) "07:00" 1 0).fired = some alarmA ∧
    (checkSwAlarms (mkSwState [slimProject alarmA, slimProject alarmB]) "07:00" 1 0).fired =
      some (slimProject alarmA) :=
  ⟨by decide, rfl, by decide,
   tick_fires_first_eligible (mkFgState [alarmA, alarmB]) "07:00" 1 0
     (mkSwState [slimProject alarmA, slimProject alarmB]) "07:00" 1 0
     (by decide) rfl (by decide),
   by decide, by decide⟩

/-- C2: For every alarm `A` with non-empty days, over any sequence of events
of one scheduler instance (clock ticks, plus user dismissals in the
foreground) in which every tick observes the same minute string `M`, the
fire action is triggered for `A`'s id at most once: the `FiredKey` recorded
at the first fire survives every later same-minute tick and blocks a
re-fire.  Stated for both the foreground and the background scheduler
instance, from arbitrary initial states. -/
theorem recurring_alarm_at_most_once_per_minute
    (A : AlarmRecord) (As : SlimAlarm) (M : String)
    (st : FgState) (es : List FgEvent) (sst : SwState) (ts : List TickInput)
    (hA : hasDays A = true) (hAs : hasDaysSlim As = true)
    (hM : ∀ t, FgEvent.tick t ∈ es → t.cm = M)
    (hMs : ∀ t ∈ ts, t.cm = M) :
    ((runFgEvents st es).2.filter (fun b => b.id == A.id)).length ≤ 1 ∧
    ((runSwTicks sst ts).2.filter (fun b => b.id == As.id)).length ≤ 1 :=
  ⟨runFgEvents_at_most_once hM, runSwTicks_at_most_once hMs⟩

/-- Witness for C2: the Monday alarm at "08:30" ticked three times inside
minute 08:30 (with a dismissal in between) fires exactly once in the
foreground, and twice-ticked in the background fires once there. -/
theorem recurring_alarm_at_most_once_per_minute_witness :
    hasDays alarmMon = true ∧ hasDaysSlim slimMon = true ∧
    (((runFgEvents (mkFgState [alarmMon])
        [FgEvent.tick ⟨"08:30", 1, 0⟩, FgEvent.dismiss,
         FgEvent.tick ⟨"08:30", 1, 1⟩, FgEvent.tick ⟨"08:30", 1, 2⟩]).2.filter
        (fun b => b.id == alarmMon.id)).length ≤ 1 ∧
      ((runSwTicks (mkSwState [slimMon])
        [⟨"08:30", 1, 0⟩, ⟨"08:30", 1, 30⟩]).2.filter
        (fun b => b.id == slimMon.id)).length ≤ 1) ∧
    ((runFgEvents (mkFgState [alarmMon])
        [FgEvent.tick ⟨"08:30", 1, 0⟩, FgEvent.dismiss,
         FgEvent.tick ⟨"08:30", 1, 1⟩, FgEvent.tick ⟨"08:30", 1, 2⟩]).2.filter
        (fun b => b.id == alarmMon.id)).length = 1 :=
  ⟨by decide, by decide,
   recurring_alarm_at_most_once_per_minute alarmMon slimMon "08:30"
     (mkFgState [alarmMon])
     [FgEvent.tick ⟨"08:30", 1, 0⟩, FgEvent.dismiss,
      FgEvent.tick ⟨"08:30", 1, 1⟩, FgEvent.tick ⟨"08:30", 1, 2⟩]
     (mkSwState [slimMon]) [⟨"08:30", 1, 0⟩, ⟨"08:30", 1, 30⟩]
     (by decide) (by decide)
     (by
       intro t ht
       simp only [List.mem_cons, List.not_mem_nil, or_false] at ht
       rcases ht with h | h | h | h
       · injection h with h2
         subst h2
         rfl
       · exact FgEvent.noConfusion h
       · injection h with h2
         subst h2
         rfl
       · injection h with h2
         subst h2
         rfl)
     (by
       intro t ht
       simp only [List.mem_cons, List.not_mem_nil, or_false] at ht
       rcases ht with h | h <;> rw [h]),
   by decide⟩

/-- C3: After any tick of either scheduler, every key remaining in that
scheduler's dedup set has minute suffix equal to the remembered last-seen
minute string (which after the tick is the observed minute); a tick
observing a minute different from the remembered one deletes every key
whose suffix is not the newly observed minute (no key with a different
suffix survives any tick), and nothing else evicts keys (every key with the
current minute's suffix survives the tick).  Both facts are relative to the
inductive invariant `keyInv`, which holds of the initial empty sets. -/
theorem firedKeys_minute_suffix_invariant
    (st : FgState) (cm : String) (cd ss : Nat)
    (sst : SwState) (cm2 : String) (cd2 ss2 : Nat)
    (hInv : keyInv st.firedKeys st.lastCheckedMinute)
    (hInv2 : keyInv sst.swFiredKeys sst.swLastMinute) :
    ((tickAlarms st cm cd ss).state.lastCheckedMinute = some cm ∧
      keyInv (tickAlarms st cm cd ss).state.firedKeys
        (tickAlarms st cm cd ss).state.lastCheckedMinute ∧
      (∀ k ∈ st.firedKeys, strEndsWith k ("|" ++ cm) = true →
        k ∈ (tickAlarms st cm cd ss).state.firedKeys) ∧
      (∀ k, strEndsWith k ("|" ++ cm) = false →
        k ∉ (tickAlarms st cm cd ss).state.firedKeys)) ∧
    ((checkSwAlarms sst cm2 cd2 ss2).state.swLastMinute = some cm2 ∧
      keyInv (checkSwAlarms sst cm2 cd2 ss2).state.swFiredKeys
        (checkSwAlarms sst cm2 cd2 ss2).state.swLastMinute ∧
      (∀ k ∈ sst.swFiredKeys, strEndsWith k ("|" ++ cm2) = true →
        k ∈ (checkSwAlarms sst cm2 cd2 ss2).state.swFiredKeys) ∧
      (∀ k, strEndsWith k ("|" ++ cm2) = false →
        k ∉ (checkSwAlarms sst cm2 cd2 ss2).state.swFiredKeys)) :=
  ⟨⟨tickAlarms_lastChecked st cm cd ss,
    fun k hk =>
      ⟨cm, tickAlarms_lastChecked st cm cd ss, tickAlarms_keys_endsWith hInv k hk⟩,
    fun _ hk he => tickAlarms_key_mem hk he,
    fun _ he => tickAlarms_key_evicted hInv he⟩,
   ⟨checkSwAlarms_lastMinute sst cm2 cd2 ss2,
    fun k hk =>
      ⟨cm2, checkSwAlarms_lastMinute sst cm2 cd2 ss2,
        checkSwAlarms_keys_endsWith hInv2 k hk⟩,
    fun _ hk he => checkSwAlarms_key_mem hk he,
    fun _ he => checkSwAlarms_key_evicted hInv2 he⟩⟩

/-- Witness for C3: states mid-minute 07:00 with the sample alarm's key
recorded, ticked at the rollover to 07:01; the extra final conjuncts
evaluate the eviction concretely. -/
theorem firedKeys_minute_suffix_invariant_witness :
    (((tickAlarms fgStKeyed "07:01" 1 0).state.lastCheckedMinute = some "07:01" ∧
      keyInv (tickAlarms fgStKeyed "07:01" 1 0).state.firedKeys
        (tickAlarms fgStKeyed "07:01" 1 0).state.lastCheckedMinute ∧
      (∀ k ∈ fgStKeyed.firedKeys, strEndsWith k ("|" ++ "07:01") = true →
        k ∈ (tickAlarms fgStKeyed "07:01" 1 0).state.firedKeys) ∧
      (∀ k, strEndsWith k ("|" ++ "07:01") = false →
        k ∉ (tickAlarms fgStKeyed "07:01" 1 0).state.firedKeys)) ∧
    ((checkSwAlarms swStKeyed "07:01" 1 0).state.swLastMinute = some "07:01" ∧
      keyInv (checkSwAlarms swStKeyed "07:01" 1 0).state.swFiredKeys
        (checkSwAlarms swStKeyed "07:01" 1 0).state.swLastMinute ∧
      (∀ k ∈ swStKeyed.swFiredKeys, strEndsWith k ("|" ++ "07:01") = true →
        k ∈ (checkSwAlarms swStKeyed "07:01" 1 0).state.swFiredKeys) ∧
      (∀ k, strEndsWith k ("|" ++ "07:01") = false →
        k ∉ (checkSwAlarms swStKeyed "07:01" 1 0).state.swFiredKeys))) ∧
    firedKeyOf alarmA "07:00" ∉ (tickAlarms fgStKeyed "07:01" 1 0).state.firedKeys ∧
    firedKeyOfSlim (slimProject alarmA) "07:00" ∉
      (checkSwAlarms swStKeyed "07:01" 1 0).state.swFiredKeys :=
  ⟨firedKeys_minute_suffix_invariant fgStKeyed "07:01" 1 0 swStKeyed "07:01" 1 0
    (by
      intro k hk
      simp only [fgStKeyed, List.mem_singleton] at hk
      subst hk
      exact ⟨"07:00", rfl, by decide⟩)
    (by
      intro k hk
      simp only [swStKeyed, List.mem_singleton] at hk
      subst hk
      exact ⟨"07:00", rfl, by decide⟩),
   by decide, by decide⟩

/-- C4: A tick whose clock second exceeds the scheduler-specific threshold
(foreground 4, background 30) fires no alarm; a foreground event sequence
all of whose ticks are past the window (as happens when the first
observation of a minute is at second 5 or later, since seconds only grow
within a minute) fires nothing at all; and concretely, a fresh foreground
scheduler observing 08:30:07 does not fire the alarm set to "08:30" while
observing 08:30:02 does. -/
theorem window_gate_blocks_late_ticks
    (st : FgState) (cm : String) (cd ss : Nat)
    (sst : SwState) (cm2 : String) (cd2 ss2 : Nat)
    (st0 : FgState) (es : List FgEvent)
    (hss : 4 < ss) (hss2 : 30 < ss2)
    (hlate : ∀ t, FgEvent.tick t ∈ es → 4 < t.ss) :
    (tickAlarms st cm cd ss).fired = none ∧
    (checkSwAlarms sst cm2 cd2 ss2).fired = none ∧
    (runFgEvents st0 es).2 = [] ∧
    (tickAlarms (mkFgState [alarm0830]) "08:30" 2 7).fired = none ∧
    (tickAlarms (mkFgState [alarm0830]) "08:30" 2 2).fired = some alarm0830 :=
  ⟨tickAlarms_fired_none_of_late hss,
   checkSwAlarms_fired_none_of_late hss2,
   runFgEvents_no_fire_of_late hlate,
   by decide, by decide⟩

/-- Witness for C4: a whole minute of foreground ticks at seconds 7..10
(first observation of 08:30 at second 7) fires nothing. -/
theorem window_gate_blocks_late_ticks_witness :
    4 < 7 ∧ 30 < 31 ∧
    ((tickAlarms (mkFgState [alarm0830]) "08:30" 2 7).fired = none ∧
      (checkSwAlarms (mkSwState [slimProject alarm0830]) "08:30" 2 31).fired = none ∧
      (runFgEvents (mkFgState [alarm0830])
        [FgEvent.tick ⟨"08:30", 2, 7⟩, FgEvent.tick ⟨"08:30", 2, 8⟩,
         FgEvent.tick ⟨"08:30", 2, 9⟩, FgEvent.tick ⟨"08:30", 2, 10⟩]).2 = [] ∧
      (tickAlarms (mkFgState [alarm0830]) "08:30" 2 7).fired = none ∧
      (tickAlarms (mkFgState [alarm0830]) "08:30" 2 2).fired = some alarm0830) :=
  ⟨by decide, by decide,
   window_gate_blocks_late_ticks (mkFgState [alarm0830]) "08:30" 2 7
     (mkSwState [slimProject alarm0830]) "08:30" 2 31
     (mkFgState [alarm0830])
     [FgEvent.tick ⟨"08:30", 2, 7⟩, FgEvent.tick ⟨"08:30", 2, 8⟩,
      FgEvent.tick ⟨"08:30", 2, 9⟩, FgEvent.tick ⟨"08:30", 2, 10⟩]
     (by decide) (by decide)
     (by
       intro t ht
       simp only [List.mem_cons, List.not_mem_nil, or_false] at ht
       rcases ht with h | h | h | h <;>
         (injection h with h2; subst h2; decide))⟩

/-- C5: When a foreground tick fires a one-shot alarm (empty or absent
days), the stored record becomes disabled and that tick runs
`saveAlarms()`/`renderAlarms()` (the `saved` flag); a fired alarm always has
`enabled = true` at fire time and a disabled record is never changed by any
later foreground events, so the alarm cannot fire again unless re-enabled
by the user; and the background scheduler never mutates its alarm list. -/
theorem one_shot_auto_disable
    (st : FgState) (cm : String) (cd ss : Nat) (b : AlarmRecord)
    (st2 : FgState) (es : List FgEvent)
    (st3 : FgState) (es3 : List FgEvent) (i : Nat) (c : AlarmRecord)
    (sst : SwState) (cm2 : String) (cd2 ss2 : Nat)
    (hb : (tickAlarms st cm cd ss).fired = some b) (hdays : hasDays b = false)
    (hc : st3.alarms[i]? = some c) (hcdis : c.enabled = false) :
    ({ b with enabled := false } ∈ (tickAlarms st cm cd ss).state.alarms ∧
      (tickAlarms st cm cd ss).saved = true) ∧
    (∀ x ∈ (runFgEvents st2 es).2, x.enabled = true) ∧
    (runFgEvents st3 es3).1.alarms[i]? = some c ∧
    (checkSwAlarms sst cm2 cd2 ss2).state.swAlarms = sst.swAlarms := by
  refine ⟨⟨?_, ?_⟩, fun x hx => runFgEvents_fired_enabled hx,
    runFgEvents_preserves_disabled hc hcdis, checkSwAlarms_swAlarms sst cm2 cd2 ss2⟩
  · have h := tickAlarms_mem_of_fired hb
    unfold oneShotUpdate at h
    rw [hdays] at h
    simpa using h
  · rw [tickAlarms_saved_of_fired hb, hdays]
    rfl

/-- Witness for C5: the fresh one-shot alarm at "07:00" fires at 07:00:00
and comes back disabled with the save flag set; a disabled record survives
two further ticks untouched; the background tick leaves its list intact.
The extra final conjunct evaluates the disabled record concretely. -/
theorem one_shot_auto_disable_witness :
    (tickAlarms (mkFgState [alarmA]) "07:00" 1 0).fired = some alarmA ∧
    hasDays alarmA = false ∧
    ((({ alarmA with enabled := false } : AlarmRecord) ∈
        (tickAlarms (mkFgState [alarmA]) "07:00" 1 0).state.alarms ∧
      (tickAlarms (mkFgState [alarmA]) "07:00" 1 0).saved = true) ∧
      (∀ x ∈ (runFgEvents (mkFgState [alarmA, alarmB])
        [FgEvent.tick ⟨"07:00", 1, 0⟩, FgEvent.dismiss,
         FgEvent.tick ⟨"07:00", 1, 1⟩]).2, x.enabled = true) ∧
      (runFgEvents (mkFgState [{ alarmA with enabled := false }])
        [FgEvent.tick ⟨"07:00", 1, 0⟩, FgEvent.tick ⟨"07:00", 1, 1⟩]).1.alarms[0]? =
          some { alarmA with enabled := false } ∧
      (checkSwAlarms (mkSwState [slimProject alarmA]) "07:00" 1 0).state.swAlarms =
        (mkSwState [slimProject alarmA]).swAlarms) ∧
    (runFgEvents (mkFgState [{ alarmA with enabled := false }])
      [FgEvent.tick ⟨"07:00", 1, 0⟩, FgEvent.tick ⟨"07:00", 1, 1⟩]).2 = [] :=
  ⟨by decide, by decide,
   one_shot_auto_disable (mkFgState [alarmA]) "07:00" 1 0 alarmA
     (mkFgState [alarmA, alarmB])
     [FgEvent.tick ⟨"07:00", 1, 0⟩, FgEvent.dismiss, FgEvent.tick ⟨"07:00", 1, 1⟩]
     (mkFgState [{ alarmA with enabled := false }])
     [FgEvent.tick ⟨"07:00", 1, 0⟩, FgEvent.tick ⟨"07:00", 1, 1⟩] 0
     { alarmA with enabled := false }
     (mkSwState [slimProject alarmA]) "07:00" 1 0
     (by decide) (by decide) (by decide) (by decide),
   by decide⟩

/-- C6: The slim projection sent to the background context by
`syncAlarmsToSW` preserves `id`, `time`, `days`, `enabled`, `name` and
`category` exactly (Lean `String`/value equality, i.e. byte-for-byte for
the string fields) and omits the audio payload field: `SlimAlarm` has no
`audioDataUrl` field at all — the object destructuring removes exactly that
key (the small `audioKey`/`audioName` metadata strings are kept by the
code, and the spec identifies the payload as the inline-encoded
`audioDataUrl`). -/
theorem slim_projection_preserves_fields (a : AlarmRecord) (l : List AlarmRecord) :
    (slimProject a).id = a.id ∧ (slimProject a).time = a.time ∧
    (slimProject a).days = a.days ∧ (slimProject a).enabled = a.enabled ∧
    (slimProject a).name = a.name ∧ (slimProject a).category = a.category ∧
    syncAlarmsToSW l = l.map slimProject :=
  ⟨rfl, rfl, rfl, rfl, rfl, rfl, rfl⟩

/-- Helper for C7: case analysis of the audio resolution of a single full
alarm record against an environment with a working `AudioContext`. -/
theorem resolveAudio_cases (fa : AlarmRecord) (env : AudioEnv)
    (hctx : env.hasAudioCtx = true) (hnew : env.ctxConstructOk = true) :
    resolveAudio fa env ≠ AudioOutcome.silent ∧
    (fa.audioDataUrl.isSome = true → env.inlinePlayOk = true →
      resolveAudio fa env = AudioOutcome.inlineAudio) ∧
    (fa.audioDataUrl.isSome = true → env.inlinePlayOk = false →
      resolveAudio fa env = AudioOutcome.beep) ∧
    (fa.audioDataUrl = none → fa.audioKey.isSome = true →
      env.blobFetch = BlobFetch.found → env.blobPlayOk = true →
      resolveAudio fa env = AudioOutcome.blobAudio) ∧
    (fa.audioDataUrl = none → fa.audioKey.isSome = true →
      (env.blobFetch ≠ BlobFetch.found ∨ env.blobPlayOk = false) →
      resolveAudio fa env = AudioOutcome.beep) ∧
    (fa.audioDataUrl = none → fa.audioKey = none →
      resolveAudio fa env = AudioOutcome.beep) := by
  have hbeep : playBeepFallback env = AudioOutcome.beep := by
    unfold playBeepFallback
    rw [hctx, hnew]
    rfl
  unfold resolveAudio
  cases hd : fa.audioDataUrl with
  | some u =>
    cases hp : env.inlinePlayOk <;>
      simp [hbeep, hp]
  | none =>
    cases hk : fa.audioKey with
    | some key =>
      cases hf : env.blobFetch <;> cases hp : env.blobPlayOk <;>
        simp [hbeep, hp, hf]
    | none => simp [hbeep]

/-- C7: In the foreground ringing sequence the audio source for the full
record looked up by id (`fullAlarmFor`) is resolved with priority inline
data URL, else blob-store lookup by `audioKey`, else the beep fallback; a
playback failure at any stage falls through (the code's failure handler at
every stage is `playBeepFallback()`, the chain's terminal option), and
whenever the environment supports `AudioContext` (the code's notion of a
supported environment — `window.AudioContext` exists and constructs) the
beep starts, so a fire never ends silent. -/
theorem audio_fallback_never_silent
    (alarms : List AlarmRecord) (alarm : AlarmRecord) (env : AudioEnv)
    (hctx : env.hasAudioCtx = true) (hnew : env.ctxConstructOk = true) :
    resolveFireAudio alarms alarm env ≠ AudioOutcome.silent ∧
    ((fullAlarmFor alarms alarm).audioDataUrl.isSome = true →
      env.inlinePlayOk = true →
      resolveFireAudio alarms alarm env = AudioOutcome.inlineAudio) ∧
    ((fullAlarmFor alarms alarm).audioDataUrl.isSome = true →
      env.inlinePlayOk = false →
      resolveFireAudio alarms alarm env = AudioOutcome.beep) ∧
    ((fullAlarmFor alarms alarm).audioDataUrl = none →
      (fullAlarmFor alarms alarm).audioKey.isSome = true →
      env.blobFetch = BlobFetch.found → env.blobPlayOk = true →
      resolveFireAudio alarms alarm env = AudioOutcome.blobAudio) ∧
    ((fullAlarmFor alarms alarm).audioDataUrl = none →
      (fullAlarmFor alarms alarm).audioKey.isSome = true →
      (env.blobFetch ≠ BlobFetch.found ∨ env.blobPlayOk = false) →
      resolveFireAudio alarms alarm env = AudioOutcome.beep) ∧
    ((fullAlarmFor alarms alarm).audioDataUrl = none →
      (fullAlarmFor alarms alarm).audioKey = none →
      resolveFireAudio alarms alarm env = AudioOutcome.beep) :=
  resolveAudio_cases (fullAlarmFor alarms alarm) env hctx hnew

/-- Witness for C7: the sample alarm has no audio fields, so in an
environment where every playback attempt would fail but `AudioContext`
works, the resolution lands on the beep (and is in particular not silent). -/
theorem audio_fallback_never_silent_witness :
    (⟨false, BlobFetch.errored, false, true, true⟩ : AudioEnv).hasAudioCtx = true ∧
    (resolveFireAudio [alarmA] alarmA ⟨false, BlobFetch.errored, false, true, true⟩ ≠
        AudioOutcome.silent) ∧
    resolveFireAudio [alarmA] alarmA ⟨false, BlobFetch.errored, false, true, true⟩ =
      AudioOutcome.beep :=
  ⟨rfl,
   (audio_fallback_never_silent [alarmA] alarmA
     ⟨false, BlobFetch.errored, false, true, true⟩ rfl rfl).1,
   by decide⟩

/-- C8: While an alarm is ringing (`currentRinging` set), a foreground tick
fires nothing, records no dedup key (the key set is exactly the post-purge
set), and leaves the alarm list and the ringing reference untouched;
`dismissAlarm` hides the overlay, stops every audio output handle, and
clears the ringing reference to `none`; and within the model the gate is
cleared by nothing else: any tick leaves a set gate set, and `fireAlarm`
always leaves the gate set (to the fired alarm). -/
theorem reentrancy_gate_and_dismiss
    (st : FgState) (cm : String) (cd ss : Nat)
    (st2 : FgState) (ui : RingUi)
    (st3 : FgState) (cm3 : String) (cd3 ss3 : Nat) (a : AlarmRecord)
    (st4 : FgState) (ui4 : RingUi) (b : AlarmRecord) (env : AudioEnv)
    (hring : st.currentRinging.isSome = true)
    (hring3 : st3.currentRinging = some a) :
    ((tickAlarms st cm cd ss).fired = none ∧
      (tickAlarms st cm cd ss).state.firedKeys = rolledKeys st cm ∧
      (tickAlarms st cm cd ss).state.alarms = st.alarms ∧
      (tickAlarms st cm cd ss).state.currentRinging = st.currentRinging) ∧
    ((dismissAlarm st2 ui).1.currentRinging = none ∧
      (dismissAlarm st2 ui).1.alarms = st2.alarms ∧
      (dismissAlarm st2 ui).2.overlayHidden = true ∧
      (dismissAlarm st2 ui).2.activeAudioEl = false ∧
      (dismissAlarm st2 ui).2.activeObjectUrl = false ∧
      (dismissAlarm st2 ui).2.beepOn = false) ∧
    (tickAlarms st3 cm3 cd3 ss3).state.currentRinging = some a ∧
    (fireAlarm st4 ui4 b env).1.currentRinging = some b := by
  have h1 : (tickAlarms st cm cd ss).fired = none :=
    tickAlarms_fired_none_of_ringing hring
  have h3f : (tickAlarms st3 cm3 cd3 ss3).fired = none :=
    tickAlarms_fired_none_of_ringing (by rw [hring3]; rfl)
  refine ⟨⟨h1, tickAlarms_keys_of_none h1, tickAlarms_alarms_of_none h1,
      tickAlarms_ringing_of_none h1⟩,
    ⟨rfl, rfl, rfl, rfl, rfl, rfl⟩, ?_, rfl⟩
  rw [tickAlarms_ringing_of_none h3f, hring3]

/-- Witness for C8 at concrete inputs: a state ringing with the sample
alarm is ticked at its own minute (nothing fires and the second alarm at
the same time is skipped entirely), then dismissed. -/
theorem reentrancy_gate_and_dismiss_witness :
    ({ mkFgState [alarmA, alarmB] with
        currentRinging := some alarmA } : FgState).currentRinging.isSome = true ∧
    (((tickAlarms { mkFgState [alarmA, alarmB] with currentRinging := some alarmA }
          "07:00" 1 0).fired = none ∧
      (tickAlarms { mkFgState [alarmA, alarmB] with currentRinging := some alarmA }
          "07:00" 1 0).state.firedKeys =
        rolledKeys { mkFgState [alarmA, alarmB] with currentRinging := some alarmA } "07:00" ∧
      (tickAlarms { mkFgState [alarmA, alarmB] with currentRinging := some alarmA }
          "07:00" 1 0).state.alarms =
        ({ mkFgState [alarmA, alarmB] with currentRinging := some alarmA } : FgState).alarms ∧
      (tickAlarms { mkFgState [alarmA, alarmB] with currentRinging := some alarmA }
          "07:00" 1 0).state.currentRinging =
        ({ mkFgState [alarmA, alarmB] with currentRinging := some alarmA } : FgState).currentRinging) ∧
    ((dismissAlarm { mkFgState [alarmA, alarmB] with currentRinging := some alarmA }
        { uiInit with overlayHidden := false, beepOn := true }).1.currentRinging = none ∧
      (dismissAlarm { mkFgState [alarmA, alarmB] with currentRinging := some alarmA }
        { uiInit with overlayHidden := false, beepOn := true }).1.alarms =
        ({ mkFgState [alarmA, alarmB] with currentRinging := some alarmA } : FgState).alarms ∧
      (dismissAlarm { mkFgState [alarmA, alarmB] with currentRinging := some alarmA }
        { uiInit with overlayHidden := false, beepOn := true }).2.overlayHidden = true ∧
      (dismissAlarm { mkFgState [alarmA, alarmB] with currentRinging := some alarmA }
        { uiInit with overlayHidden := false, beepOn := true }).2.activeAudioEl = false ∧
      (dismissAlarm { mkFgState [alarmA, alarmB] with currentRinging := some alarmA }
        { uiInit with overlayHidden := false, beepOn := true }).2.activeObjectUrl = false ∧
      (dismissAlarm { mkFgState [alarmA, alarmB] with currentRinging := some alarmA }
        { uiInit with overlayHidden := false, beepOn := true }).2.beepOn = false) ∧
    (tickAlarms { mkFgState [alarmA, alarmB] with currentRinging := some alarmA }
        "07:00" 1 0).state.currentRinging = some alarmA ∧
    (fireAlarm (mkFgState [alarmA, alarmB]) uiInit alarmB
        ⟨true, BlobFetch.found, true, true, true⟩).1.currentRinging = some alarmB) :=
  ⟨rfl,
   reentrancy_gate_and_dismiss
     { mkFgState [alarmA, alarmB] with currentRinging := some alarmA } "07:00" 1 0
     { mkFgState [alarmA, alarmB] with currentRinging := some alarmA }
     { uiInit with overlayHidden := false, beepOn := true }
     { mkFgState [alarmA, alarmB] with currentRinging := some alarmA } "07:00" 1 0 alarmA
     (mkFgState [alarmA, alarmB]) uiInit alarmB ⟨true, BlobFetch.found, true, true, true⟩
     rfl rfl⟩

/-- C9: `loadAlarms` yields the empty sequence — and, being a total
function of the stored value and the parse outcome, never throws — when the
stored value is absent (`null` or the falsy empty string), when
`JSON.parse` throws (the `catch` branch), or when it parses to a non-array;
and it yields the parsed elements when the value parses to an array. -/
theorem loadAlarms_malformed_yields_empty :
    (∀ parse : String → ParseResult, loadAlarms none parse = []) ∧
    (∀ parse : String → ParseResult, loadAlarms (some "") parse = []) ∧
    (∀ (parse : String → ParseResult) (s : String),
      parse s = ParseResult.err → loadAlarms (some s) parse = []) ∧
    (∀ (parse : String → ParseResult) (s : String) (v : JsValue),
      parse s = ParseResult.ok v → (∀ xs, v ≠ JsValue.jarr xs) →
      loadAlarms (some s) parse = []) ∧
    (∀ (parse : String → ParseResult) (s : String) (xs : List JsValue),
      parse s = ParseResult.ok (JsValue.jarr xs) →
      loadAlarms (some s) parse = xs ∨ (s = "" ∧ loadAlarms (some s) parse = [])) := by
  refine ⟨fun parse => rfl, fun parse => by simp [loadAlarms], ?_, ?_, ?_⟩
  · intro parse s hp
    by_cases hs : s = ""
    · simp [loadAlarms, hs]
    · simp [loadAlarms, hs, hp]
  · intro parse s v hp hv
    by_cases hs : s = ""
    · simp [loadAlarms, hs]
    · cases v with
      | jarr xs => exact absurd rfl (hv xs)
      | jnull => simp [loadAlarms, hs, hp]
      | jbool b => simp [loadAlarms, hs, hp]
      | jnum n => simp [loadAlarms, hs, hp]
      | jstr s2 => simp [loadAlarms, hs, hp]
      | jobj fs => simp [loadAlarms, hs, hp]
  · intro parse s xs hp
    by_cases hs : s = ""
    · exact Or.inr ⟨hs, by simp [loadAlarms, hs]⟩
    · exact Or.inl (by simp [loadAlarms, hs, hp])

/-- Witness for C9: absent value, empty string, a parse error, and a parsed
non-array all load as the empty list. -/
theorem loadAlarms_malformed_yields_empty_witness :
    loadAlarms none (fun _ => ParseResult.err) = [] ∧
    loadAlarms (some "") (fun _ => ParseResult.err) = [] ∧
    loadAlarms (some "not json") (fun _ => ParseResult.err) = [] ∧
    loadAlarms (some "42") (fun _ => ParseResult.ok (JsValue.jnum 42)) = [] :=
  ⟨loadAlarms_malformed_yields_empty.1 _,
   loadAlarms_malformed_yields_empty.2.1 _,
   loadAlarms_malformed_yields_empty.2.2.1 _ "not json" rfl,
   loadAlarms_malformed_yields_empty.2.2.2.1 _ "42" (JsValue.jnum 42) rfl
     (fun xs h => JsValue.noConfusion h)⟩

/-- C10: The fire action (`fireAlarm`) never mutates the alarm list, the
dedup key set, or the remembered minute — it only sets the ringing
reference and drives UI/audio; in particular, when a fire is triggered by
an `ALARM_FIRED` message from the background context (`onSwMessage`), a
one-shot alarm record stays in the list unchanged with `enabled` still
true (the auto-disable lives only in the foreground tick path). -/
theorem fire_action_mutates_no_alarm
    (st : FgState) (ui : RingUi) (alarm : AlarmRecord) (env : AudioEnv)
    (st2 : FgState) (ui2 : RingUi) (a2 : AlarmRecord) (env2 : AudioEnv)
    (b : AlarmRecord)
    (hb : b ∈ st2.alarms) (hdays : hasDays b = false) (hben : b.enabled = true) :
    ((fireAlarm st ui alarm env).1.alarms = st.alarms ∧
      (fireAlarm st ui alarm env).1.firedKeys = st.firedKeys ∧
      (fireAlarm st ui alarm env).1.lastCheckedMinute = st.lastCheckedMinute) ∧
    ((onSwAlarmFired st2 ui2 a2 env2).1.alarms = st2.alarms ∧
      b ∈ (onSwAlarmFired st2 ui2 a2 env2).1.alarms ∧ b.enabled = true) := by
  have halarms : (onSwAlarmFired st2 ui2 a2 env2).1.alarms = st2.alarms := by
    unfold onSwAlarmFired
    split <;> rfl
  refine ⟨⟨rfl, rfl, rfl⟩, halarms, ?_, hben⟩
  rw [halarms]
  exact hb

/-- Witness for C10: the one-shot sample alarm delivered back to the page
as a slim `ALARM_FIRED` payload leaves the stored full record enabled. -/
theorem fire_action_mutates_no_alarm_witness :
    alarmA ∈ (mkFgState [alarmA]).alarms ∧ hasDays alarmA = false ∧
    alarmA.enabled = true ∧
    (((fireAlarm (mkFgState [alarmA]) uiInit alarmA
        ⟨true, BlobFetch.found, true, true, true⟩).1.alarms =
          (mkFgState [alarmA]).alarms ∧
      (fireAlarm (mkFgState [alarmA]) uiInit alarmA
        ⟨true, BlobFetch.found, true, true, true⟩).1.firedKeys =
          (mkFgState [alarmA]).firedKeys ∧
      (fireAlarm (mkFgState [alarmA]) uiInit alarmA
        ⟨true, BlobFetch.found, true, true, true⟩).1.lastCheckedMinute =
          (mkFgState [alarmA]).lastCheckedMinute) ∧
    ((onSwAlarmFired (mkFgState [alarmA]) uiInit (slimToRecord (slimProject alarmA))
        ⟨true, BlobFetch.found, true, true, true⟩).1.alarms =
          (mkFgState [alarmA]).alarms ∧
      alarmA ∈ (onSwAlarmFired (mkFgState [alarmA]) uiInit
        (slimToRecord (slimProject alarmA))
        ⟨true, BlobFetch.found, true, true, true⟩).1.alarms ∧
      alarmA.enabled = true)) :=
  ⟨List.mem_singleton.mpr rfl, by decide, by decide,
   fire_action_mutates_no_alarm (mkFgState [alarmA]) uiInit alarmA
     ⟨true, BlobFetch.found, true, true, true⟩
     (mkFgState [alarmA]) uiInit (slimToRecord (slimProject alarmA))
     ⟨true, BlobFetch.found, true, true, true⟩ alarmA
     (List.mem_singleton.mpr rfl) (by decide) (by decide)⟩

end AlarmPro
